import Mathlib

/-!
Shallow embedding of the mcproton Monte Carlo option pricer
(src/lib.rs, src/barrier.rs, src/underlying.rs) and proofs of the
specification claims about it.

Modelling conventions:

* `f64` values are modelled as rationals (`ℚ`).  All arithmetic the pricer
  performs on prices, payoffs and barrier levels is exact field arithmetic,
  so the rational embedding is faithful wherever no transcendental function
  is involved; the two uses of `exp` are handled as described below.
* Randomness: in `price_option` the random draws enter the price recursion
  only through the multiplicative factor
  `exp(drift_i*dt + diffusion_i*sqrt(dt)*z_i)` applied to each price at each
  step.  The embedding parametrises a pricing run by these growth factors,
  `G : path → step → underlying → ℚ`; as the normal draws range over the
  reals the factor ranges over the positive rationals (up to density), and
  every claim quantified over simulated paths is quantified over all factor
  assignments.  The Cholesky transform only shapes the joint distribution of
  the factors and therefore does not appear in the per-path dynamics.
* The Cholesky factorisation of the correlation matrix is modelled by its
  success predicate: nalgebra's `cholesky()` succeeds exactly when every
  pivot produced by the elimination is strictly positive, which is the
  recursive Schur-complement test `choleskyOk` below (rational, exact).
* Panics (Rust `assert!`, `expect`, out-of-bounds indexing, `unwrap`) are
  modelled as `Option`/`Except` error values.  `PriceError` records the
  stage at which `price_option` aborts: at the dimension asserts, at the
  Cholesky `expect`, while computing the initial barrier reference before
  the path loop, or inside the simulation of path `p`.
* An empty selection in `calculate_reference` produces a non-finite value
  (`±∞`, `NaN`) or an index panic in the source; all of these are modelled
  uniformly as `none`.  Every claim concerns non-empty selections.
* The final discounting multiplies by `exp(-r*T)`; this single real-valued
  step is modelled with `Real.exp` on top of the rational core.
-/

namespace MCProton

/-- An underlying asset: name, spot price, annualized volatility
(src/underlying.rs). -/
structure Underlying where
  name : String
  spot_price : ℚ
  volatility : ℚ
deriving Repr, DecidableEq

/-- Type of barrier aggregation for multi-underlying options
(src/barrier.rs). -/
inductive BarrierType where
  | WorstOf
  | BestOf
  | Average
  | Median
deriving Repr, DecidableEq

/-- A barrier for barrier options (src/barrier.rs). -/
structure Barrier where
  barrier_level : ℚ
  in_out : Bool
  up_down : Bool
  barrier_type : BarrierType
  relative : Bool
  underlying_indices : List ℕ
deriving Repr, DecidableEq

/-- Error type for barrier creation (src/barrier.rs). -/
structure BarrierError where
  message : String
deriving Repr, DecidableEq

/-- Barrier constructor for a single underlying (src/barrier.rs,
`Barrier::new`): always uses `WorstOf` aggregation and index set `[0]`. -/
def Barrier.new (barrier_level : ℚ) (in_out : Bool) (up_down : Bool)
    (relative : Bool) : Barrier :=
  { barrier_level := barrier_level
    in_out := in_out
    up_down := up_down
    barrier_type := BarrierType.WorstOf
    relative := relative
    underlying_indices := [0] }

/-- Barrier constructor for multiple underlyings (src/barrier.rs,
`Barrier::new_multi`): rejects more than one index with an absolute level,
otherwise passes all fields through. -/
def Barrier.new_multi (barrier_level : ℚ) (in_out : Bool) (up_down : Bool)
    (barrier_type : BarrierType) (relative : Bool)
    (underlying_indices : List ℕ) : Except BarrierError Barrier :=
  if 1 < underlying_indices.length ∧ relative = false then
    .error { message := "Cannot create barrier with " ++
      toString underlying_indices.length ++
      " underlyings and absolute level. Use relative=true for multi-underlying barriers." }
  else
    .ok { barrier_level := barrier_level
          in_out := in_out
          up_down := up_down
          barrier_type := barrier_type
          relative := relative
          underlying_indices := underlying_indices }

/-- C8: `Barrier::new_multi` errors exactly when more than one underlying
index is given with `relative = false`; in every other case it returns `Ok`
with a `Barrier` carrying exactly the given field values. -/
theorem C8_new_multi_validation (lvl : ℚ) (io ud : Bool) (bt : BarrierType)
    (rel : Bool) (idxs : List ℕ) :
    ((Barrier.new_multi lvl io ud bt rel idxs).toOption = none ↔
      (1 < idxs.length ∧ rel = false)) ∧
    (∀ b, Barrier.new_multi lvl io ud bt rel idxs = .ok b →
      b.barrier_level = lvl ∧ b.in_out = io ∧ b.up_down = ud ∧
      b.barrier_type = bt ∧ b.relative = rel ∧ b.underlying_indices = idxs) ∧
    (¬(1 < idxs.length ∧ rel = false) →
      Barrier.new_multi lvl io ud bt rel idxs =
        .ok { barrier_level := lvl, in_out := io, up_down := ud,
              barrier_type := bt, relative := rel,
              underlying_indices := idxs }) := by
  unfold Barrier.new_multi
  by_cases h : 1 < idxs.length ∧ rel = false
  · refine ⟨?_, ?_, fun hc => absurd h hc⟩
    · rw [if_pos h]
      simpa [Except.toOption] using h
    · rw [if_pos h]
      intro b hb
      simp at hb
  · refine ⟨?_, ?_, fun _ => if_neg h⟩
    · rw [if_neg h]
      simpa [Except.toOption] using h
    · rw [if_neg h]
      intro b hb
      cases hb
      exact ⟨rfl, rfl, rfl, rfl, rfl, rfl⟩

/-- Witness for C8 at concrete inputs: two indices with an absolute level is
rejected, three indices with a relative level is accepted verbatim. -/
theorem C8_new_multi_validation_witness :
    (Barrier.new_multi 100 true true BarrierType.Average false [0, 1]).toOption = none ∧
    Barrier.new_multi 95 true false BarrierType.Median true [0, 1, 2] =
      .ok { barrier_level := 95, in_out := true, up_down := false,
            barrier_type := BarrierType.Median, relative := true,
            underlying_indices := [0, 1, 2] } :=
  ⟨(C8_new_multi_validation 100 true true BarrierType.Average false [0, 1]).1.mpr
      (by decide),
   (C8_new_multi_validation 95 true false BarrierType.Median true [0, 1, 2]).2.2
      (by decide)⟩

/-- Counterexample for C9: `Barrier::new_multi` accepts an empty index list
(its only check is `len() > 1 && !relative`), so a successful constructor
call can produce a barrier with empty `underlying_indices`. -/
theorem C9_counterexample :
    Barrier.new_multi 100 true true BarrierType.Average true [] =
      .ok { barrier_level := 100, in_out := true, up_down := true,
            barrier_type := BarrierType.Average, relative := true,
            underlying_indices := [] } ∧
    ({ barrier_level := 100, in_out := true, up_down := true,
       barrier_type := BarrierType.Average, relative := true,
       underlying_indices := [] } : Barrier).underlying_indices = [] :=
  ⟨rfl, rfl⟩

/-- C9 (amended): `Barrier::new` always produces index set `[0]`, hence
non-empty; a successful `Barrier::new_multi` call carries exactly the given
index list, hence is non-empty whenever the given list is non-empty (but
`new_multi` also accepts an empty list, succeeding with an empty index set). -/
theorem C9_constructor_indices :
    (∀ (lvl : ℚ) (io ud rel : Bool),
      (Barrier.new lvl io ud rel).underlying_indices = [0]) ∧
    (∀ (lvl : ℚ) (io ud : Bool) (bt : BarrierType) (rel : Bool)
      (idxs : List ℕ) (b : Barrier), idxs ≠ [] →
      Barrier.new_multi lvl io ud bt rel idxs = .ok b →
      b.underlying_indices = idxs ∧ b.underlying_indices ≠ []) := by
  refine ⟨fun _ _ _ _ => rfl, ?_⟩
  intro lvl io ud bt rel idxs b hne hok
  unfold Barrier.new_multi at hok
  split at hok
  · cases hok
  · cases hok
    exact ⟨rfl, hne⟩

/-- Witness for the amended C9 at a concrete input. -/
theorem C9_constructor_indices_witness :
    (Barrier.new 100 true true false).underlying_indices = [0] ∧
    ({ barrier_level := 100, in_out := true, up_down := true,
       barrier_type := BarrierType.Average, relative := true,
       underlying_indices := [2] } : Barrier).underlying_indices ≠ [] :=
  ⟨C9_constructor_indices.1 100 true true false,
   (C9_constructor_indices.2 100 true true BarrierType.Average true [2] _
      (by decide) rfl).2⟩

/-- Dynamically sized matrix (nalgebra `DMatrix<f64>`): explicit dimensions
plus an entry function. -/
structure DMatrix where
  nrows : ℕ
  ncols : ℕ
  entry : ℕ → ℕ → ℚ

/-- One Schur-complement elimination step on the trailing submatrix. -/
def schurFun (f : ℕ → ℕ → ℚ) (i j : ℕ) : ℚ :=
  f (i + 1) (j + 1) - f (i + 1) 0 * f 0 (j + 1) / f 0 0

/-- Success predicate of nalgebra's `cholesky()` on a `k × k` symmetric
matrix: the factorisation succeeds exactly when every pivot produced by the
elimination is strictly positive (the matrix is positive definite). -/
def choleskyOk : ℕ → (ℕ → ℕ → ℚ) → Bool
  | 0, _ => true
  | k + 1, f => decide (0 < f 0 0) && choleskyOk k (schurFun f)

/-- The selection `prices[idx]` for `idx` in `indices`, as performed by the
`calculate_reference` closure in src/lib.rs; `none` models Rust's
index-out-of-bounds panic. -/
def selectPrices (prices : List ℚ) (indices : List ℕ) : Option (List ℚ) :=
  indices.mapM (fun i => prices[i]?)

/-- The `calculate_reference` closure of `price_option` (src/lib.rs):
aggregate the prices selected by `indices` according to the barrier type.
An empty selection yields a non-finite value or a panic in the source and is
modelled as `none`; every claim concerns non-empty selections. -/
def calculate_reference (prices : List ℚ) (indices : List ℕ)
    (barrier_type : BarrierType) : Option ℚ :=
  match selectPrices prices indices with
  | none => none
  | some [] => none
  | some (v :: vs) =>
    match barrier_type with
    | .WorstOf => some (vs.foldl min v)
    | .BestOf => some (vs.foldl max v)
    | .Average => some ((v :: vs).sum / (indices.length : ℚ))
    | .Median =>
      let sorted := (v :: vs).insertionSort (· ≤ ·)
      let mid := sorted.length / 2
      if sorted.length % 2 = 0 then
        match sorted[mid - 1]?, sorted[mid]? with
        | some a, some b => some ((a + b) / 2)
        | _, _ => none
      else sorted[mid]?

/-- Median of an already ascending-sorted list, as the spec words it: the
middle value if the count is odd, the mean of the two middle values if the
count is even. -/
def spec_median_of_sorted (s : List ℚ) : ℚ :=
  if s.length % 2 = 0 then (s.getD (s.length / 2 - 1) 0 + s.getD (s.length / 2) 0) / 2
  else s.getD (s.length / 2) 0

lemma selectPrices_nil (prices : List ℚ) : selectPrices prices [] = some [] := rfl

lemma selectPrices_cons (prices : List ℚ) (i : ℕ) (is : List ℕ) :
    selectPrices prices (i :: is) =
      (prices[i]?).bind fun v => (selectPrices prices is).map fun vs => v :: vs := by
  simp only [selectPrices, List.mapM_cons]
  cases prices[i]? with
  | none => rfl
  | some v =>
    cases h : List.mapM (fun j => prices[j]?) is with
    | none => simp [h]
    | some vs => simp [h]

lemma selectPrices_length {prices : List ℚ} :
    ∀ {idxs : List ℕ} {vals : List ℚ},
      selectPrices prices idxs = some vals → vals.length = idxs.length := by
  intro idxs
  induction idxs with
  | nil =>
    intro vals h
    rw [selectPrices_nil] at h
    cases h
    rfl
  | cons i is ih =>
    intro vals h
    rw [selectPrices_cons] at h
    rcases Option.bind_eq_some.1 h with ⟨a, _, h2⟩
    rcases Option.map_eq_some'.1 h2 with ⟨bs, hbs, h3⟩
    cases h3
    simpa using ih hbs

lemma selectPrices_some_of_bounds (prices : List ℚ) :
    ∀ (idxs : List ℕ), (∀ i ∈ idxs, i < prices.length) →
      ∃ vals, selectPrices prices idxs = some vals := by
  intro idxs
  induction idxs with
  | nil => exact fun _ => ⟨[], rfl⟩
  | cons i is ih =>
    intro hb
    obtain ⟨vals, hvals⟩ := ih fun j hj => hb j (List.mem_cons_of_mem _ hj)
    refine ⟨prices.get ⟨i, hb i (List.mem_cons_self _ _)⟩ :: vals, ?_⟩
    rw [selectPrices_cons, List.getElem?_eq_getElem (hb i (List.mem_cons_self _ _)),
      Option.some_bind, hvals]
    rfl

lemma foldl_min_mem (v : ℚ) (vs : List ℚ) : vs.foldl min v ∈ v :: vs := by
  induction vs generalizing v with
  | nil => simp
  | cons w ws ih =>
    rw [List.foldl_cons]
    rcases List.mem_cons.1 (ih (min v w)) with h | h
    · rcases min_choice v w with hm | hm
      · exact List.mem_cons.2 (Or.inl (h.trans hm))
      · exact List.mem_cons.2 (Or.inr (List.mem_cons.2 (Or.inl (h.trans hm))))
    · exact List.mem_cons.2 (Or.inr (List.mem_cons.2 (Or.inr h)))

lemma foldl_min_le (v : ℚ) (vs : List ℚ) : ∀ x ∈ v :: vs, vs.foldl min v ≤ x := by
  induction vs generalizing v with
  | nil =>
    intro x hx
    rcases List.mem_cons.1 hx with h | h
    · simp [h]
    · simp at h
  | cons w ws ih =>
    intro x hx
    rw [List.foldl_cons]
    rcases List.mem_cons.1 hx with rfl | h
    · exact le_trans (ih (min x w) _ (List.mem_cons_self _ _)) (min_le_left x w)
    · rcases List.mem_cons.1 h with rfl | h2
      · exact le_trans (ih (min v x) _ (List.mem_cons_self _ _)) (min_le_right v x)
      · exact ih (min v w) x (List.mem_cons.2 (Or.inr h2))

lemma foldl_max_mem (v : ℚ) (vs : List ℚ) : vs.foldl max v ∈ v :: vs := by
  induction vs generalizing v with
  | nil => simp
  | cons w ws ih =>
    rw [List.foldl_cons]
    rcases List.mem_cons.1 (ih (max v w)) with h | h
    · rcases max_choice v w with hm | hm
      · exact List.mem_cons.2 (Or.inl (h.trans hm))
      · exact List.mem_cons.2 (Or.inr (List.mem_cons.2 (Or.inl (h.trans hm))))
    · exact List.mem_cons.2 (Or.inr (List.mem_cons.2 (Or.inr h)))

lemma le_foldl_max (v : ℚ) (vs : List ℚ) : ∀ x ∈ v :: vs, x ≤ vs.foldl max v := by
  induction vs generalizing v with
  | nil =>
    intro x hx
    rcases List.mem_cons.1 hx with h | h
    · simp [h]
    · simp at h
  | cons w ws ih =>
    intro x hx
    rw [List.foldl_cons]
    rcases List.mem_cons.1 hx with rfl | h
    · exact le_trans (le_max_left x w) (ih (max x w) _ (List.mem_cons_self _ _))
    · rcases List.mem_cons.1 h with rfl | h2
      · exact le_trans (le_max_right v x) (ih (max v x) _ (List.mem_cons_self _ _))
      · exact ih (max v w) x (List.mem_cons.2 (Or.inr h2))

lemma calc_worstof_eq (prices : List ℚ) (idxs : List ℕ) (v : ℚ) (vs : List ℚ)
    (hsel : selectPrices prices idxs = some (v :: vs)) :
    calculate_reference prices idxs BarrierType.WorstOf = some (vs.foldl min v) := by
  unfold calculate_reference
  rw [hsel]

lemma calc_bestof_eq (prices : List ℚ) (idxs : List ℕ) (v : ℚ) (vs : List ℚ)
    (hsel : selectPrices prices idxs = some (v :: vs)) :
    calculate_reference prices idxs BarrierType.BestOf = some (vs.foldl max v) := by
  unfold calculate_reference
  rw [hsel]

lemma calc_average_eq (prices : List ℚ) (idxs : List ℕ) (v : ℚ) (vs : List ℚ)
    (hsel : selectPrices prices idxs = some (v :: vs)) :
    calculate_reference prices idxs BarrierType.Average =
      some ((v :: vs).sum / (idxs.length : ℚ)) := by
  unfold calculate_reference
  rw [hsel]

lemma calc_median_eq (prices : List ℚ) (idxs : List ℕ) (v : ℚ) (vs : List ℚ)
    (hsel : selectPrices prices idxs = some (v :: vs)) :
    calculate_reference prices idxs BarrierType.Median =
      some (spec_median_of_sorted ((v :: vs).insertionSort (· ≤ ·))) := by
  have hlen : ((v :: vs).insertionSort (· ≤ ·)).length = vs.length + 1 := by
    rw [List.length_insertionSort]
    rfl
  have hpos : 0 < ((v :: vs).insertionSort (· ≤ ·)).length := by omega
  unfold calculate_reference spec_median_of_sorted
  rw [hsel]
  set s := (v :: vs).insertionSort (· ≤ ·) with hs
  simp only
  by_cases hpar : s.length % 2 = 0
  · have hlen2 : 2 ≤ s.length := by omega
    have hmid : s.length / 2 < s.length := Nat.div_lt_self hpos one_lt_two
    have hmid1 : s.length / 2 - 1 < s.length := by omega
    rw [if_pos hpar, if_pos hpar, List.getElem?_eq_getElem hmid,
      List.getElem?_eq_getElem hmid1]
    simp [List.getD_eq_getElem?_getD, List.getElem?_eq_getElem, hmid, hmid1]
  · have hmid : s.length / 2 < s.length := Nat.div_lt_self hpos one_lt_two
    rw [if_neg hpar, if_neg hpar, List.getElem?_eq_getElem hmid]
    simp [List.getD_eq_getElem?_getD, List.getElem?_eq_getElem, hmid]

lemma calculate_reference_isSome (prices : List ℚ) (idxs : List ℕ)
    (bt : BarrierType) (hne : idxs ≠ []) (hbd : ∀ i ∈ idxs, i < prices.length) :
    (calculate_reference prices idxs bt).isSome = true := by
  obtain ⟨vals, hvals⟩ := selectPrices_some_of_bounds prices idxs hbd
  have hlen := selectPrices_length hvals
  have hvne : vals ≠ [] := by
    intro h
    rw [h] at hlen
    exact hne (List.eq_nil_of_length_eq_zero hlen.symm)
  obtain ⟨v, vs, rfl⟩ := List.exists_cons_of_ne_nil hvne
  cases bt with
  | WorstOf => rw [calc_worstof_eq prices idxs v vs hvals]; rfl
  | BestOf => rw [calc_bestof_eq prices idxs v vs hvals]; rfl
  | Average => rw [calc_average_eq prices idxs v vs hvals]; rfl
  | Median => rw [calc_median_eq prices idxs v vs hvals]; rfl

/-- C3: on a non-empty index set covered by the price vector, the
aggregation returns the minimum of the selected prices for WorstOf, the
maximum for BestOf, the arithmetic mean for Average, and the middle of the
ascending-sorted selection (mean of the two middles when even) for Median;
in particular prices `[90, 100, 110, 120]` have median `105` and prices
`[90, 100, 120]` have median `100`. -/
theorem C3_aggregation (prices : List ℚ) (idxs : List ℕ) (vals : List ℚ)
    (hne : idxs ≠ []) (hbd : ∀ i ∈ idxs, i < prices.length)
    (hsel : selectPrices prices idxs = some vals) :
    ((∀ w, calculate_reference prices idxs BarrierType.WorstOf = some w →
        w ∈ vals ∧ ∀ x ∈ vals, w ≤ x) ∧
      (calculate_reference prices idxs BarrierType.WorstOf).isSome = true ∧
      (∀ w, calculate_reference prices idxs BarrierType.BestOf = some w →
        w ∈ vals ∧ ∀ x ∈ vals, x ≤ w) ∧
      (calculate_reference prices idxs BarrierType.BestOf).isSome = true ∧
      calculate_reference prices idxs BarrierType.Average =
        some (vals.sum / (vals.length : ℚ)) ∧
      (∃ s, vals.Perm s ∧ s.Sorted (· ≤ ·) ∧
        calculate_reference prices idxs BarrierType.Median =
          some (spec_median_of_sorted s))) ∧
    calculate_reference [90, 100, 110, 120] [0, 1, 2, 3] BarrierType.Median =
      some 105 ∧
    calculate_reference [90, 100, 120] [0, 1, 2] BarrierType.Median =
      some 100 := by
  have hlen := selectPrices_length hsel
  have hvne : vals ≠ [] := by
    intro h
    rw [h] at hlen
    exact hne (List.eq_nil_of_length_eq_zero hlen.symm)
  obtain ⟨v, vs, rfl⟩ := List.exists_cons_of_ne_nil hvne
  refine ⟨⟨?_, ?_, ?_, ?_, ?_, ?_⟩, ?_, ?_⟩
  · intro w hw
    rw [calc_worstof_eq prices idxs v vs hsel] at hw
    simp only [Option.some_inj] at hw
    exact hw ▸ ⟨foldl_min_mem v vs, foldl_min_le v vs⟩
  · rw [calc_worstof_eq prices idxs v vs hsel]
    rfl
  · intro w hw
    rw [calc_bestof_eq prices idxs v vs hsel] at hw
    simp only [Option.some_inj] at hw
    exact hw ▸ ⟨foldl_max_mem v vs, le_foldl_max v vs⟩
  · rw [calc_bestof_eq prices idxs v vs hsel]
    rfl
  · rw [calc_average_eq prices idxs v vs hsel, hlen]
  · refine ⟨(v :: vs).insertionSort (· ≤ ·),
      (List.perm_insertionSort _ _).symm, List.sorted_insertionSort _ _, ?_⟩
    exact calc_median_eq prices idxs v vs hsel
  · rw [calc_median_eq [90, 100, 110, 120] [0, 1, 2, 3] 90 [100, 110, 120]
      (by decide)]
    rw [show ([90, (100 : ℚ), 110, 120]).insertionSort (· ≤ ·) =
      [90, 100, 110, 120] by decide]
    unfold spec_median_of_sorted
    norm_num
  · rw [calc_median_eq [90, 100, 120] [0, 1, 2] 90 [100, 120] (by decide)]
    rw [show ([90, (100 : ℚ), 120]).insertionSort (· ≤ ·) = [90, 100, 120]
      by decide]
    unfold spec_median_of_sorted
    norm_num

/-- Witness for C3 at a concrete input: prices `[30, 10, 20]` with all three
indices selected discharge the hypotheses; the median examples follow. -/
theorem C3_aggregation_witness :
    calculate_reference [90, 100, 110, 120] [0, 1, 2, 3] BarrierType.Median =
      some 105 ∧
    calculate_reference [90, 100, 120] [0, 1, 2] BarrierType.Median =
      some 100 :=
  (C3_aggregation [30, 10, 20] [0, 1, 2] [30, 10, 20] (by decide) (by decide)
    (by decide)).2

/-- Per-path mutable state of `price_option`: the current prices (one per
underlying) and the "barrier ever hit" flag. -/
structure PathState where
  prices : List ℚ
  barrier_hit : Bool
deriving Repr, DecidableEq

/-- One GBM update of all prices (src/lib.rs, inner `for i` loop): each
price is multiplied by its growth factor
`exp(drift_i*dt + diffusion_i*sqrt(dt)*z_i)`, abstracted here as `g i`. -/
def gbm_step (prices : List ℚ) (g : ℕ → ℚ) : List ℚ :=
  prices.mapIdx fun i p => p * g i

/-- The effective barrier level (src/lib.rs): for a relative barrier the
initial reference (whose absence, `initial_reference.unwrap()`, would
panic) times the barrier level, otherwise the barrier level itself. -/
def effective_level (b : Barrier) (initial_reference : Option ℚ) : Option ℚ :=
  if b.relative then initial_reference.map fun ir => ir * b.barrier_level
  else some b.barrier_level

/-- The per-step barrier test of `price_option` (src/lib.rs): compare the
aggregate of the current prices against the effective level; `up_down`
chooses the direction.  `none` models a panic. -/
def barrier_check (b : Barrier) (initial_reference : Option ℚ)
    (prices : List ℚ) : Option Bool :=
  match effective_level b initial_reference,
      calculate_reference prices b.underlying_indices b.barrier_type with
  | some eff, some cv =>
    some (if b.up_down then decide (eff ≤ cv) else decide (cv ≤ eff))
  | _, _ => none

/-- One simulation step (src/lib.rs, inner `for _` loop body): update the
prices, then, if a barrier is configured, run the barrier test and latch the
hit flag (`if hit { barrier_hit = true }`). -/
def path_step (barrier : Option Barrier) (initial_reference : Option ℚ)
    (st : PathState) (g : ℕ → ℚ) : Option PathState :=
  let new_prices := gbm_step st.prices g
  match barrier with
  | none => some { prices := new_prices, barrier_hit := st.barrier_hit }
  | some b =>
    match barrier_check b initial_reference new_prices with
    | none => none
    | some hit =>
      some { prices := new_prices, barrier_hit := st.barrier_hit || hit }

/-- Simulation of one path (src/lib.rs): starting from the spot prices with
the hit flag `false`, fold the step function over `steps` steps, the step
`s` using growth factors `g s`. -/
def simulate_path (barrier : Option Barrier) (initial_reference : Option ℚ)
    (spots : List ℚ) (steps : ℕ) (g : ℕ → ℕ → ℚ) : Option PathState :=
  (List.range steps).foldlM
    (fun st s => path_step barrier initial_reference st (g s))
    { prices := spots, barrier_hit := false }

/-- The price trajectory ignoring barrier bookkeeping: prices after `k`
steps. -/
def prices_after (spots : List ℚ) (g : ℕ → ℕ → ℚ) : ℕ → List ℚ
  | 0 => spots
  | k + 1 => gbm_step (prices_after spots g k) (g k)

/-- Intrinsic payoff (src/lib.rs): `max(S_T - K, 0)` for a call,
`max(K - S_T, 0)` for a put. -/
def intrinsic_payoff (strike : ℚ) (is_call : Bool) (final_price : ℚ) : ℚ :=
  if is_call then max (final_price - strike) 0 else max (strike - final_price) 0

/-- Barrier gating of the payoff (src/lib.rs): an "in" barrier pays only if
hit, an "out" barrier only if not hit, no barrier passes the payoff through. -/
def gate_payoff (barrier : Option Barrier) (barrier_hit : Bool)
    (payoff : ℚ) : ℚ :=
  match barrier with
  | none => payoff
  | some b =>
    if b.in_out then (if barrier_hit then payoff else 0)
    else (if barrier_hit then 0 else payoff)

/-- Recorded payoff of a finished path (src/lib.rs): intrinsic payoff of
`current_prices[0]` (a panic, modelled `none`, when there are no
underlyings), gated by the barrier semantics. -/
def path_payoff (strike : ℚ) (is_call : Bool) (barrier : Option Barrier)
    (st : PathState) : Option ℚ :=
  match st.prices with
  | [] => none
  | final_price :: _ =>
    some (gate_payoff barrier st.barrier_hit
      (intrinsic_payoff strike is_call final_price))

/-- Stage at which `price_option` aborts: the dimension asserts, the
Cholesky `expect`, a panic while computing the initial barrier reference
before the path loop, or a panic inside the simulation of path `p`. -/
inductive PriceError where
  | dimMismatch
  | notPositiveDefinite
  | panicInit
  | panicInPath (path : ℕ)
deriving Repr, DecidableEq

/-- Number of simulation steps (src/lib.rs): one step per calendar day when
a barrier is configured, a single step otherwise. -/
def num_steps (time_horizon_days : ℕ) (barrier : Option Barrier) : ℕ :=
  if barrier.isSome then time_horizon_days else 1

/-- The initial reference for relative barriers (src/lib.rs), computed once
from the spot prices before any path; the outer `none` models a panic
inside that computation, the inner `Option` is the source's
`initial_reference: Option<f64>`. -/
def compute_initial_reference (barrier : Option Barrier) (spots : List ℚ) :
    Option (Option ℚ) :=
  match barrier with
  | none => some none
  | some b =>
    if b.relative then
      match calculate_reference spots b.underlying_indices b.barrier_type with
      | none => none
      | some ir => some (some ir)
    else some none

/-- Simulation and payoff of one path, with the path index recorded in the
error. -/
def path_result (strike : ℚ) (is_call : Bool) (barrier : Option Barrier)
    (initial_reference : Option ℚ) (spots : List ℚ) (steps : ℕ) (p : ℕ)
    (g : ℕ → ℕ → ℚ) : Except PriceError ℚ :=
  match (simulate_path barrier initial_reference spots steps g).bind
      (path_payoff strike is_call barrier) with
  | none => .error (.panicInPath p)
  | some v => .ok v

/-- The payoffs recorded by the path loop of `price_option`, in path order;
the first panic aborts the whole loop. -/
def run_payoffs (strike : ℚ) (is_call : Bool) (barrier : Option Barrier)
    (initial_reference : Option ℚ) (spots : List ℚ) (steps num_paths : ℕ)
    (G : ℕ → ℕ → ℕ → ℚ) : Except PriceError (List ℚ) :=
  (List.range num_paths).mapM fun p =>
    path_result strike is_call barrier initial_reference spots steps p (G p)

/-- The undiscounted core of `price_option` (src/lib.rs): validate the
correlation-matrix dimensions, require the Cholesky factorisation to
succeed, compute the initial barrier reference, run all paths, and average
the recorded payoffs.  `G p s i` is the growth factor of underlying `i` at
step `s` of path `p` (see the module comment). -/
def price_option_core (underlyings : List Underlying)
    (correlation_matrix : DMatrix) (time_horizon_days : ℕ) (strike_price : ℚ)
    (is_call : Bool) (num_paths : ℕ) (barrier : Option Barrier)
    (G : ℕ → ℕ → ℕ → ℚ) : Except PriceError ℚ :=
  let num_underlyings := underlyings.length
  if correlation_matrix.nrows ≠ num_underlyings then .error .dimMismatch
  else if correlation_matrix.ncols ≠ num_underlyings then .error .dimMismatch
  else if choleskyOk num_underlyings correlation_matrix.entry = false then
    .error .notPositiveDefinite
  else
    let spots := underlyings.map fun u => u.spot_price
    match compute_initial_reference barrier spots with
    | none => .error .panicInit
    | some initial_reference =>
      match run_payoffs strike_price is_call barrier initial_reference spots
          (num_steps time_horizon_days barrier) num_paths G with
      | .error e => .error e
      | .ok payoffs => .ok (payoffs.sum / (num_paths : ℚ))

/-- The full `price_option` (src/lib.rs): the average payoff discounted by
`exp(-r*T)` with `T = time_horizon_days / 365` years.  The risk-free rate
also enters every growth factor through the drift (see the module
comment). -/
noncomputable def price_option (underlyings : List Underlying)
    (correlation_matrix : DMatrix) (time_horizon_days : ℕ) (strike_price : ℚ)
    (is_call : Bool) (risk_free_rate : ℚ) (num_paths : ℕ)
    (barrier : Option Barrier) (G : ℕ → ℕ → ℕ → ℚ) : Except PriceError ℝ :=
  (price_option_core underlyings correlation_matrix time_horizon_days
      strike_price is_call num_paths barrier G).map
    fun average_payoff =>
      (average_payoff : ℝ) *
        Real.exp (-(risk_free_rate : ℝ) * ((time_horizon_days : ℝ) / 365))

lemma gbm_step_length (prices : List ℚ) (g : ℕ → ℚ) :
    (gbm_step prices g).length = prices.length := by
  simp [gbm_step]

lemma simulate_path_zero (barrier : Option Barrier)
    (initial_reference : Option ℚ) (spots : List ℚ) (g : ℕ → ℕ → ℚ) :
    simulate_path barrier initial_reference spots 0 g =
      some { prices := spots, barrier_hit := false } := rfl

lemma simulate_path_succ (barrier : Option Barrier)
    (initial_reference : Option ℚ) (spots : List ℚ) (k : ℕ) (g : ℕ → ℕ → ℚ) :
    simulate_path barrier initial_reference spots (k + 1) g =
      (simulate_path barrier initial_reference spots k g).bind
        (fun st => path_step barrier initial_reference st (g k)) := by
  unfold simulate_path
  rw [List.range_succ, List.foldlM_append]
  cases (List.range k).foldlM
      (fun st s => path_step barrier initial_reference st (g s))
      { prices := spots, barrier_hit := false } with
  | none => rfl
  | some st =>
    simp only [Option.some_bind, List.foldlM_cons, List.foldlM_nil]
    cases h : path_step barrier initial_reference st (g k) with
    | none => simp [h]
    | some st2 => simp [h]

lemma except_mapM_ok_length {ε α β : Type} (f : α → Except ε β) :
    ∀ (l : List α) (bs : List β), l.mapM f = .ok bs → bs.length = l.length := by
  intro l
  induction l with
  | nil =>
    intro bs h
    rw [List.mapM_nil] at h
    cases h
    rfl
  | cons a as ih =>
    intro bs h
    rw [List.mapM_cons] at h
    cases hfa : f a with
    | error e =>
      rw [hfa] at h
      exact absurd h (fun hc => Except.noConfusion hc)
    | ok b =>
      rw [hfa] at h
      replace h : (as.mapM f >>= fun bs2 => pure (b :: bs2)) = Except.ok bs := h
      cases hms : as.mapM f with
      | error e =>
        rw [hms] at h
        exact absurd h (fun hc => Except.noConfusion hc)
      | ok bs2 =>
        rw [hms] at h
        replace h : Except.ok (b :: bs2) = Except.ok bs := h
        cases h
        simpa using ih bs2 hms

lemma except_mapM_ok_get {ε α β : Type} (f : α → Except ε β) :
    ∀ (l : List α) (bs : List β), l.mapM f = .ok bs →
      ∀ (i : ℕ) (hi : i < l.length), ∃ hb : i < bs.length,
        f (l.get ⟨i, hi⟩) = .ok (bs.get ⟨i, hb⟩) := by
  intro l
  induction l with
  | nil =>
    intro bs h i hi
    exact absurd hi (by simp)
  | cons a as ih =>
    intro bs h i hi
    rw [List.mapM_cons] at h
    cases hfa : f a with
    | error e =>
      rw [hfa] at h
      exact absurd h (fun hc => Except.noConfusion hc)
    | ok b =>
      rw [hfa] at h
      replace h : (as.mapM f >>= fun bs2 => pure (b :: bs2)) = Except.ok bs := h
      cases hms : as.mapM f with
      | error e =>
        rw [hms] at h
        exact absurd h (fun hc => Except.noConfusion hc)
      | ok bs2 =>
        rw [hms] at h
        replace h : Except.ok (b :: bs2) = Except.ok bs := h
        cases h
        cases i with
        | zero => exact ⟨by simp, by simpa using hfa⟩
        | succ j =>
          obtain ⟨hb, hget⟩ := ih bs2 hms j (by simpa using hi)
          exact ⟨by simpa using hb, by simpa using hget⟩

lemma except_mapM_ok_of_forall {ε α β : Type} (f : α → Except ε β)
    (P : β → Prop) :
    ∀ (l : List α), (∀ a ∈ l, ∃ b, f a = .ok b ∧ P b) →
      ∃ bs, l.mapM f = .ok bs ∧ ∀ v ∈ bs, P v := by
  intro l
  induction l with
  | nil => exact fun _ => ⟨[], rfl, by simp⟩
  | cons a as ih =>
    intro hall
    obtain ⟨b, hfa, hPb⟩ := hall a (List.mem_cons_self _ _)
    obtain ⟨bs, hms, hPs⟩ := ih fun x hx => hall x (List.mem_cons_of_mem _ hx)
    refine ⟨b :: bs, ?_, ?_⟩
    · rw [List.mapM_cons, hfa]
      show (as.mapM f >>= fun bs2 => pure (b :: bs2)) = Except.ok (b :: bs)
      rw [hms]
      rfl
    · intro v hv
      rcases List.mem_cons.1 hv with rfl | hv2
      · exact hPb
      · exact hPs v hv2

/-- The intrinsic payoff exactly as the spec sentence words it:
`max(terminal - strike, 0)` for a call, `max(strike - terminal, 0)` for a
put. -/
def spec_intrinsic (strike : ℚ) (is_call : Bool) (terminal : ℚ) : ℚ :=
  if is_call then max (terminal - strike) 0 else max (strike - terminal) 0

/-- The barrier gate exactly as the spec sentence words it: no barrier
leaves the payoff unchanged, a knock-in barrier pays only when hit, a
knock-out barrier pays only when not hit. -/
def spec_gate (barrier : Option Barrier) (hit : Bool) (payoff : ℚ) : ℚ :=
  match barrier with
  | none => payoff
  | some b =>
    if b.in_out then (if hit then payoff else 0)
    else (if hit then 0 else payoff)

/-- The spec's description of a recorded payoff: the barrier-gated
intrinsic payoff of the terminal price of underlying index 0 (`none` when
there is no underlying index 0). -/
def spec_recorded_payoff (strike : ℚ) (is_call : Bool)
    (barrier : Option Barrier) (st : PathState) : Option ℚ :=
  (st.prices[0]?).map fun terminal =>
    spec_gate barrier st.barrier_hit (spec_intrinsic strike is_call terminal)

lemma gate_payoff_eq_spec (barrier : Option Barrier) (hit : Bool) (p : ℚ) :
    gate_payoff barrier hit p = spec_gate barrier hit p := by
  cases barrier <;> rfl

lemma intrinsic_payoff_eq_spec (strike : ℚ) (is_call : Bool) (t : ℚ) :
    intrinsic_payoff strike is_call t = spec_intrinsic strike is_call t := rfl

lemma path_payoff_eq_spec (strike : ℚ) (is_call : Bool)
    (barrier : Option Barrier) (st : PathState) :
    path_payoff strike is_call barrier st =
      spec_recorded_payoff strike is_call barrier st := by
  cases hp : st.prices with
  | nil =>
    unfold path_payoff spec_recorded_payoff
    rw [hp]
    rfl
  | cons v vs =>
    unfold path_payoff spec_recorded_payoff
    rw [hp]
    simp only [List.getElem?_cons_zero, Option.map_some']
    rw [gate_payoff_eq_spec, intrinsic_payoff_eq_spec]

/-- C1: in every successful pricing run, the payoff recorded for path `p`
is exactly the barrier-gated intrinsic payoff of the terminal price of
underlying index 0 of that path's own simulation, where the gate passes the
payoff through with no barrier, pays on `Hit` for a knock-in barrier and on
`NotHit` for a knock-out barrier. -/
theorem C1_recorded_payoff (strike : ℚ) (is_call : Bool)
    (barrier : Option Barrier) (iref : Option ℚ) (spots : List ℚ)
    (steps np : ℕ) (G : ℕ → ℕ → ℕ → ℚ) (ps : List ℚ) (p : ℕ)
    (hrun : run_payoffs strike is_call barrier iref spots steps np G = .ok ps)
    (hp : p < np) :
    ps[p]? = (simulate_path barrier iref spots steps (G p)).bind
        (spec_recorded_payoff strike is_call barrier) ∧
    ((simulate_path barrier iref spots steps (G p)).bind
        (spec_recorded_payoff strike is_call barrier)).isSome = true := by
  obtain ⟨hb, hget⟩ := except_mapM_ok_get _ _ _ hrun p (by simpa using hp)
  rw [List.get_eq_getElem, List.getElem_range] at hget
  unfold path_result at hget
  have hspec : (simulate_path barrier iref spots steps (G p)).bind
      (spec_recorded_payoff strike is_call barrier) =
      (simulate_path barrier iref spots steps (G p)).bind
      (path_payoff strike is_call barrier) := by
    cases simulate_path barrier iref spots steps (G p) with
    | none => rfl
    | some st => simp [path_payoff_eq_spec]
  rw [hspec]
  cases hres : (simulate_path barrier iref spots steps (G p)).bind
      (path_payoff strike is_call barrier) with
  | none =>
    rw [hres] at hget
    exact absurd hget (fun hc => Except.noConfusion hc)
  | some v =>
    rw [hres] at hget
    replace hget : Except.ok v = Except.ok (ps.get ⟨p, hb⟩) := hget
    cases hget
    refine ⟨?_, rfl⟩
    rw [List.getElem?_eq_getElem hb]
    simp

/-- Witness for C1: one path, zero steps, no barrier; the recorded payoff
is the gated intrinsic payoff of the spot. -/
theorem C1_recorded_payoff_witness :
    ([gate_payoff none false (intrinsic_payoff 100 true 100)] : List ℚ)[0]? =
      (simulate_path none none [100] 0 (fun _ _ => 1)).bind
        (spec_recorded_payoff 100 true none) ∧
    ((simulate_path none none [100] 0 (fun _ _ => 1)).bind
        (spec_recorded_payoff 100 true none)).isSome = true :=
  C1_recorded_payoff 100 true none none [100] 0 1 (fun _ _ _ => 1)
    [gate_payoff none false (intrinsic_payoff 100 true 100)] 0 rfl
    (by decide)

/-- C2: the per-step barrier test compares the aggregate of the current
prices over the barrier's indices against an effective level that is the
spot-price aggregate (computed once, before any path, by
`compute_initial_reference`) times `barrier_level` when `relative`, and
`barrier_level` directly otherwise; an up barrier hits iff the aggregate is
`≥` the effective level, a down barrier iff it is `≤`. -/
theorem C2_barrier_test (b : Barrier) (spots prices : List ℚ) (ir cv : ℚ)
    (iref : Option ℚ)
    (hcv : calculate_reference prices b.underlying_indices b.barrier_type =
      some cv)
    (hir : b.relative = true →
      calculate_reference spots b.underlying_indices b.barrier_type = some ir)
    (hiref : compute_initial_reference (some b) spots = some iref) :
    barrier_check b iref prices =
      some (if b.up_down
        then decide
          ((if b.relative then ir * b.barrier_level else b.barrier_level) ≤ cv)
        else decide
          (cv ≤ (if b.relative then ir * b.barrier_level else b.barrier_level))) := by
  cases hrel : b.relative with
  | false =>
    simp only [compute_initial_reference, hrel, Bool.false_eq_true, if_false]
      at hiref
    cases hiref
    simp only [barrier_check, effective_level, hrel, Bool.false_eq_true,
      if_false, hcv]
  | true =>
    simp only [compute_initial_reference, hrel, if_true] at hiref
    rw [hir hrel] at hiref
    simp only at hiref
    injection hiref with h2
    subst h2
    simp only [barrier_check, effective_level, hrel, if_true,
      Option.map_some', hcv]

/-- Witness for C2: absolute up barrier at 105 on underlying 0, current
price 110. -/
theorem C2_barrier_test_witness :
    barrier_check (Barrier.mk 105 true true BarrierType.WorstOf false [0])
      none [110] =
      some (if (Barrier.mk 105 true true BarrierType.WorstOf false [0]).up_down
        then decide
          ((if (Barrier.mk 105 true true BarrierType.WorstOf false [0]).relative
            then 0 * (Barrier.mk 105 true true BarrierType.WorstOf false
              [0]).barrier_level
            else (Barrier.mk 105 true true BarrierType.WorstOf false
              [0]).barrier_level) ≤ 110)
        else decide
          ((110 : ℚ) ≤
            (if (Barrier.mk 105 true true BarrierType.WorstOf false
                [0]).relative
              then 0 * (Barrier.mk 105 true true BarrierType.WorstOf false
                [0]).barrier_level
              else (Barrier.mk 105 true true BarrierType.WorstOf false
                [0]).barrier_level))) :=
  C2_barrier_test (Barrier.mk 105 true true BarrierType.WorstOf false [0])
    [100] [110] 0 110 none rfl (fun h => nomatch h) rfl

lemma simulate_barrier_charac (bb : Barrier) (iref : Option ℚ)
    (spots : List ℚ) (g : ℕ → ℕ → ℚ) :
    ∀ (steps : ℕ) (st : PathState),
      simulate_path (some bb) iref spots steps g = some st →
      st.prices = prices_after spots g steps ∧
      (st.barrier_hit = true ↔ ∃ k, k < steps ∧
        barrier_check bb iref (prices_after spots g (k + 1)) = some true) := by
  intro steps
  induction steps with
  | zero =>
    intro st h
    rw [simulate_path_zero] at h
    cases h
    exact ⟨rfl, by simp⟩
  | succ k ih =>
    intro st h
    rw [simulate_path_succ] at h
    rcases Option.bind_eq_some.1 h with ⟨st1, hst1, hstep⟩
    obtain ⟨hprices, hhit⟩ := ih st1 hst1
    simp only [path_step] at hstep
    cases hcheck : barrier_check bb iref (gbm_step st1.prices (g k)) with
    | none =>
      rw [hcheck] at hstep
      exact Option.noConfusion hstep
    | some hit =>
      rw [hcheck] at hstep
      cases hstep
      have hnext : prices_after spots g (k + 1) = gbm_step st1.prices (g k) := by
        rw [prices_after, hprices]
      refine ⟨by rw [prices_after, hprices], ?_⟩
      simp only [Bool.or_eq_true, hhit]
      constructor
      · rintro (⟨j, hj, hcj⟩ | hhit2)
        · exact ⟨j, Nat.lt_succ_of_lt hj, hcj⟩
        · refine ⟨k, Nat.lt_succ_self k, ?_⟩
          rw [hnext, hcheck, hhit2]
      · rintro ⟨j, hj, hcj⟩
        rcases Nat.lt_succ_iff_lt_or_eq.1 hj with hj2 | rfl
        · exact Or.inl ⟨j, hj2, hcj⟩
        · right
          rw [hnext, hcheck] at hcj
          injection hcj

/-- C4: per-path barrier state machine and path independence.  First, a
path starts from the spot prices with the hit flag `false` (the zero-step
simulation is exactly that state, so every path is re-initialized).  Second,
the payoff recorded for path `p` depends only on path `p`'s own growth
factors, so no state leaks between paths.  Third, for a barrier
configuration the final prices are the step-`k` trajectory and the hit flag
is `true` exactly when some earlier step's barrier test fired — so the flag
latches at the first satisfied step and never reverts. -/
theorem C4_hit_flag :
    (∀ (barrier : Option Barrier) (iref : Option ℚ) (spots : List ℚ)
        (g : ℕ → ℕ → ℚ),
      simulate_path barrier iref spots 0 g =
        some { prices := spots, barrier_hit := false }) ∧
    (∀ (strike : ℚ) (is_call : Bool) (barrier : Option Barrier)
        (iref : Option ℚ) (spots : List ℚ) (steps np : ℕ)
        (G G' : ℕ → ℕ → ℕ → ℚ) (ps ps' : List ℚ) (p : ℕ),
      p < np →
      run_payoffs strike is_call barrier iref spots steps np G = .ok ps →
      run_payoffs strike is_call barrier iref spots steps np G' = .ok ps' →
      G p = G' p → ps[p]? = ps'[p]?) ∧
    (∀ (bb : Barrier) (iref : Option ℚ) (spots : List ℚ) (steps : ℕ)
        (g : ℕ → ℕ → ℚ) (st : PathState),
      simulate_path (some bb) iref spots steps g = some st →
      st.prices = prices_after spots g steps ∧
      (st.barrier_hit = true ↔ ∃ k, k < steps ∧
        barrier_check bb iref (prices_after spots g (k + 1)) = some true)) := by
  refine ⟨fun barrier iref spots g => simulate_path_zero _ _ _ _, ?_,
    fun bb iref spots steps g st h =>
      simulate_barrier_charac bb iref spots g steps st h⟩
  intro strike is_call barrier iref spots steps np G G' ps ps' p hp hrun hrun'
    hGp
  obtain ⟨hb, hget⟩ := except_mapM_ok_get _ _ _ hrun p (by simpa using hp)
  obtain ⟨hb', hget'⟩ := except_mapM_ok_get _ _ _ hrun' p (by simpa using hp)
  rw [List.get_eq_getElem, List.getElem_range] at hget hget'
  rw [hGp] at hget
  rw [hget] at hget'
  replace hget' : ps.get ⟨p, hb⟩ = ps'.get ⟨p, hb'⟩ := by
    injection hget'
  rw [List.getElem?_eq_getElem hb, List.getElem?_eq_getElem hb']
  simpa using hget'

/-- Witness for C4 at concrete inputs (zero-step simulations and a
one-path run). -/
theorem C4_hit_flag_witness :
    simulate_path none none [100] 0 (fun _ _ => 1) =
      some { prices := [100], barrier_hit := false } ∧
    (([gate_payoff none false (intrinsic_payoff 100 true 100)] :
        List ℚ)[0]? =
      ([gate_payoff none false (intrinsic_payoff 100 true 100)] :
        List ℚ)[0]?) ∧
    (([100] : List ℚ) = prices_after [100] (fun _ _ => 1) 0 ∧
      (false = true ↔ ∃ k, k < 0 ∧
        barrier_check (Barrier.mk 105 true true BarrierType.WorstOf false [0])
          none (prices_after [100] (fun _ _ => 1) (k + 1)) = some true)) :=
  ⟨C4_hit_flag.1 none none [100] (fun _ _ => 1),
   C4_hit_flag.2.1 100 true none none [100] 0 1 (fun _ _ _ => 1)
     (fun _ _ _ => 1)
     [gate_payoff none false (intrinsic_payoff 100 true 100)]
     [gate_payoff none false (intrinsic_payoff 100 true 100)] 0
     (by decide) rfl rfl rfl,
   C4_hit_flag.2.2 (Barrier.mk 105 true true BarrierType.WorstOf false [0])
     none [100] 0 (fun _ _ => 1) { prices := [100], barrier_hit := false }
     rfl⟩

lemma barrier_check_isSome (bb : Barrier) (iref : Option ℚ) (prices : List ℚ)
    (hne : bb.underlying_indices ≠ [])
    (hbd : ∀ i ∈ bb.underlying_indices, i < prices.length)
    (hrel : bb.relative = true → iref.isSome = true) :
    (barrier_check bb iref prices).isSome = true := by
  have hcalc := calculate_reference_isSome prices bb.underlying_indices
    bb.barrier_type hne hbd
  obtain ⟨cv, hcv⟩ := Option.isSome_iff_exists.1 hcalc
  have heff : (effective_level bb iref).isSome = true := by
    unfold effective_level
    cases hr : bb.relative with
    | false => rfl
    | true =>
      obtain ⟨ir, hir⟩ := Option.isSome_iff_exists.1 (hrel hr)
      rw [hir]
      rfl
  obtain ⟨eff, heff2⟩ := Option.isSome_iff_exists.1 heff
  unfold barrier_check
  rw [heff2, hcv]
  rfl

lemma path_step_isSome (barrier : Option Barrier) (iref : Option ℚ)
    (st : PathState) (g : ℕ → ℚ)
    (hbar : ∀ bb, barrier = some bb → bb.underlying_indices ≠ [] ∧
      (∀ i ∈ bb.underlying_indices, i < st.prices.length) ∧
      (bb.relative = true → iref.isSome = true)) :
    ∃ st2, path_step barrier iref st g = some st2 ∧
      st2.prices = gbm_step st.prices g := by
  cases barrier with
  | none => exact ⟨_, rfl, rfl⟩
  | some bb =>
    obtain ⟨hne, hbd, hrel⟩ := hbar bb rfl
    have hcheck := barrier_check_isSome bb iref (gbm_step st.prices g) hne
      (by rw [gbm_step_length]; exact hbd) hrel
    obtain ⟨hit, hhit⟩ := Option.isSome_iff_exists.1 hcheck
    refine ⟨{ prices := gbm_step st.prices g,
              barrier_hit := st.barrier_hit || hit }, ?_, rfl⟩
    simp only [path_step]
    rw [hhit]

lemma simulate_path_isSome (barrier : Option Barrier) (iref : Option ℚ)
    (spots : List ℚ) (g : ℕ → ℕ → ℚ)
    (hbar : ∀ bb, barrier = some bb → bb.underlying_indices ≠ [] ∧
      (∀ i ∈ bb.underlying_indices, i < spots.length) ∧
      (bb.relative = true → iref.isSome = true)) :
    ∀ steps, ∃ st, simulate_path barrier iref spots steps g = some st ∧
      st.prices.length = spots.length := by
  intro steps
  induction steps with
  | zero => exact ⟨_, simulate_path_zero _ _ _ _, rfl⟩
  | succ k ih =>
    obtain ⟨st, hst, hlen⟩ := ih
    obtain ⟨st2, hstep, hst2⟩ := path_step_isSome barrier iref st (g k)
      (fun bb hbb => ⟨(hbar bb hbb).1, by rw [hlen]; exact (hbar bb hbb).2.1,
        (hbar bb hbb).2.2⟩)
    refine ⟨st2, ?_, by rw [hst2, gbm_step_length, hlen]⟩
    rw [simulate_path_succ, hst, Option.some_bind, hstep]

lemma intrinsic_payoff_nonneg (strike : ℚ) (is_call : Bool) (t : ℚ) :
    0 ≤ intrinsic_payoff strike is_call t := by
  unfold intrinsic_payoff
  cases is_call <;> simp [le_max_right]

lemma gate_payoff_nonneg (barrier : Option Barrier) (hit : Bool) (p : ℚ)
    (hp : 0 ≤ p) : 0 ≤ gate_payoff barrier hit p := by
  unfold gate_payoff
  cases barrier with
  | none => exact hp
  | some b =>
    cases hio : b.in_out <;> cases hit <;> simp [hio, hp]

lemma path_payoff_ok (strike : ℚ) (is_call : Bool) (barrier : Option Barrier)
    (st : PathState) (hne : st.prices ≠ []) :
    ∃ v, path_payoff strike is_call barrier st = some v ∧ 0 ≤ v := by
  obtain ⟨fp, rest, hp⟩ := List.exists_cons_of_ne_nil hne
  refine ⟨gate_payoff barrier st.barrier_hit
    (intrinsic_payoff strike is_call fp), ?_,
    gate_payoff_nonneg _ _ _ (intrinsic_payoff_nonneg _ _ _)⟩
  unfold path_payoff
  rw [hp]

lemma path_result_ok (strike : ℚ) (is_call : Bool) (barrier : Option Barrier)
    (iref : Option ℚ) (spots : List ℚ) (steps p : ℕ) (g : ℕ → ℕ → ℚ)
    (hne : spots ≠ [])
    (hbar : ∀ bb, barrier = some bb → bb.underlying_indices ≠ [] ∧
      (∀ i ∈ bb.underlying_indices, i < spots.length) ∧
      (bb.relative = true → iref.isSome = true)) :
    ∃ v, path_result strike is_call barrier iref spots steps p g = .ok v ∧
      0 ≤ v := by
  obtain ⟨st, hst, hlen⟩ := simulate_path_isSome barrier iref spots g hbar steps
  have hpne : st.prices ≠ [] := by
    intro h
    rw [h] at hlen
    exact hne (List.eq_nil_of_length_eq_zero hlen.symm)
  obtain ⟨v, hv, hv0⟩ := path_payoff_ok strike is_call barrier st hpne
  refine ⟨v, ?_, hv0⟩
  unfold path_result
  rw [hst, Option.some_bind, hv]

lemma compute_initial_reference_ok (barrier : Option Barrier)
    (spots : List ℚ)
    (hbar : ∀ bb, barrier = some bb → bb.underlying_indices ≠ [] ∧
      ∀ i ∈ bb.underlying_indices, i < spots.length) :
    ∃ iref, compute_initial_reference barrier spots = some iref ∧
      (∀ bb, barrier = some bb → bb.relative = true → iref.isSome = true) := by
  cases barrier with
  | none => exact ⟨none, rfl, fun bb hbb => Option.noConfusion hbb⟩
  | some bb =>
    obtain ⟨hne, hbd⟩ := hbar bb rfl
    cases hrel : bb.relative with
    | false =>
      refine ⟨none, ?_, ?_⟩
      · simp [compute_initial_reference, hrel]
      · intro bb2 hbb2 hrel2
        cases hbb2
        rw [hrel] at hrel2
        exact Bool.noConfusion hrel2
    | true =>
      have hcalc := calculate_reference_isSome spots bb.underlying_indices
        bb.barrier_type hne hbd
      obtain ⟨ir, hir⟩ := Option.isSome_iff_exists.1 hcalc
      refine ⟨some ir, ?_, fun _ _ _ => rfl⟩
      simp [compute_initial_reference, hrel, hir]

lemma price_option_core_valid_eq (us : List Underlying) (corr : DMatrix)
    (days : ℕ) (K : ℚ) (c : Bool) (np : ℕ) (b : Option Barrier)
    (G : ℕ → ℕ → ℕ → ℚ)
    (hrows : corr.nrows = us.length) (hcols : corr.ncols = us.length)
    (hchol : choleskyOk us.length corr.entry = true) :
    price_option_core us corr days K c np b G =
      match compute_initial_reference b (us.map fun u => u.spot_price) with
      | none => .error .panicInit
      | some iref =>
        match run_payoffs K c b iref (us.map fun u => u.spot_price)
            (num_steps days b) np G with
        | .error e => .error e
        | .ok payoffs => .ok (payoffs.sum / (np : ℚ)) := by
  unfold price_option_core
  rw [if_neg (fun h => h hrows), if_neg (fun h => h hcols),
    if_neg (by rw [hchol]; exact fun h => Bool.noConfusion h)]

lemma price_option_core_dim_error (us : List Underlying) (corr : DMatrix)
    (days : ℕ) (K : ℚ) (c : Bool) (np : ℕ) (b : Option Barrier)
    (G : ℕ → ℕ → ℕ → ℚ)
    (h : corr.nrows ≠ us.length ∨ corr.ncols ≠ us.length) :
    price_option_core us corr days K c np b G = .error .dimMismatch := by
  unfold price_option_core
  by_cases h1 : corr.nrows ≠ us.length
  · rw [if_pos h1]
  · rcases h with h2 | h2
    · exact absurd h2 h1
    · rw [if_neg h1, if_pos h2]

lemma price_option_core_chol_error (us : List Underlying) (corr : DMatrix)
    (days : ℕ) (K : ℚ) (c : Bool) (np : ℕ) (b : Option Barrier)
    (G : ℕ → ℕ → ℕ → ℚ)
    (hrows : corr.nrows = us.length) (hcols : corr.ncols = us.length)
    (hchol : choleskyOk us.length corr.entry = false) :
    price_option_core us corr days K c np b G =
      .error .notPositiveDefinite := by
  unfold price_option_core
  rw [if_neg (fun h => h hrows), if_neg (fun h => h hcols), if_pos hchol]

lemma core_ok_of_valid (us : List Underlying) (corr : DMatrix) (days : ℕ)
    (K : ℚ) (c : Bool) (np : ℕ) (b : Option Barrier) (G : ℕ → ℕ → ℕ → ℚ)
    (hne : us ≠ [])
    (hrows : corr.nrows = us.length) (hcols : corr.ncols = us.length)
    (hchol : choleskyOk us.length corr.entry = true)
    (hbar : ∀ bb, b = some bb → bb.underlying_indices ≠ [] ∧
      ∀ i ∈ bb.underlying_indices, i < us.length) :
    ∃ avg, price_option_core us corr days K c np b G = .ok avg ∧
      0 ≤ avg := by
  have hslen : (us.map fun u => u.spot_price).length = us.length := by simp
  have hsne : (us.map fun u => u.spot_price) ≠ [] := by
    simpa using hne
  obtain ⟨iref, hiref, hirel⟩ := compute_initial_reference_ok b
    (us.map fun u => u.spot_price)
    (fun bb hbb => ⟨(hbar bb hbb).1, by rw [hslen]; exact (hbar bb hbb).2⟩)
  obtain ⟨payoffs, hrun, hpos⟩ := except_mapM_ok_of_forall
    (fun p => path_result K c b iref (us.map fun u => u.spot_price)
      (num_steps days b) p (G p)) (fun v => 0 ≤ v) (List.range np)
    (fun p _ => by
      obtain ⟨v, hv, hv0⟩ := path_result_ok K c b iref
        (us.map fun u => u.spot_price) (num_steps days b) p (G p) hsne
        (fun bb hbb => ⟨(hbar bb hbb).1, by rw [hslen]; exact (hbar bb hbb).2,
          hirel bb hbb⟩)
      exact ⟨v, hv, hv0⟩)
  refine ⟨payoffs.sum / (np : ℚ), ?_, ?_⟩
  · rw [price_option_core_valid_eq us corr days K c np b G hrows hcols hchol,
      hiref]
    show (match run_payoffs K c b iref (us.map fun u => u.spot_price)
        (num_steps days b) np G with
      | .error e => Except.error e
      | .ok payoffs => Except.ok (payoffs.sum / (np : ℚ))) = _
    rw [show run_payoffs K c b iref (us.map fun u => u.spot_price)
        (num_steps days b) np G = Except.ok payoffs from hrun]
  · exact div_nonneg (List.sum_nonneg hpos) (by positivity)

lemma calculate_reference_oob (prices : List ℚ) (j : ℕ) (bt : BarrierType)
    (hj : prices.length ≤ j) : calculate_reference prices [j] bt = none := by
  unfold calculate_reference
  rw [selectPrices_cons, List.getElem?_eq_none hj]
  rfl

lemma barrier_check_oob (bb : Barrier) (iref : Option ℚ) (prices : List ℚ)
    (j : ℕ) (hrel : bb.relative = false)
    (hidx : bb.underlying_indices = [j]) (hj : prices.length ≤ j) :
    barrier_check bb iref prices = none := by
  unfold barrier_check
  rw [hidx, calculate_reference_oob prices j bb.barrier_type hj]
  rw [show effective_level bb iref = some bb.barrier_level by
    simp [effective_level, hrel]]

lemma simulate_first_step_none (barrier : Option Barrier) (iref : Option ℚ)
    (spots : List ℚ) (g : ℕ → ℕ → ℚ) (k : ℕ)
    (hstep : path_step barrier iref
      { prices := spots, barrier_hit := false } (g 0) = none) :
    simulate_path barrier iref spots (k + 1) g = none := by
  unfold simulate_path
  rw [List.range_succ_eq_map, List.foldlM_cons, hstep]
  rfl

/-- C5: `price_option` uses one step with no barrier and one step per
calendar day with a barrier, and the returned value is the arithmetic mean
of the per-path payoffs discounted by `exp(-r*T)` with `T = days / 365`. -/
theorem C5_steps_and_discounting (us : List Underlying) (corr : DMatrix)
    (days : ℕ) (K : ℚ) (c : Bool) (r : ℚ) (np : ℕ) (b : Option Barrier)
    (G : ℕ → ℕ → ℕ → ℚ) (avg : ℚ)
    (hcore : price_option_core us corr days K c np b G = .ok avg) :
    price_option us corr days K c r np b G =
      .ok ((avg : ℝ) * Real.exp (-(r : ℝ) * ((days : ℝ) / 365))) ∧
    (b = none → num_steps days b = 1) ∧
    (∀ bb, b = some bb → num_steps days b = days) ∧
    ∀ iref ps,
      compute_initial_reference b (us.map fun u => u.spot_price) = some iref →
      run_payoffs K c b iref (us.map fun u => u.spot_price)
        (num_steps days b) np G = .ok ps →
      avg = ps.sum / (np : ℚ) ∧ ps.length = np := by
  refine ⟨?_, ?_, ?_, ?_⟩
  · unfold price_option
    rw [hcore]
    rfl
  · intro h
    subst h
    rfl
  · intro bb hbb
    subst hbb
    rfl
  · intro iref ps hiref hrun
    simp only [price_option_core] at hcore
    split at hcore
    · exact absurd hcore (fun h => Except.noConfusion h)
    split at hcore
    · exact absurd hcore (fun h => Except.noConfusion h)
    split at hcore
    · exact absurd hcore (fun h => Except.noConfusion h)
    rw [hiref] at hcore
    replace hcore : (match run_payoffs K c b iref
        (us.map fun u => u.spot_price) (num_steps days b) np G with
      | .error e => Except.error e
      | .ok payoffs => Except.ok (payoffs.sum / (np : ℚ))) =
        Except.ok avg := hcore
    rw [hrun] at hcore
    replace hcore : Except.ok (ps.sum / (np : ℚ)) = Except.ok avg := hcore
    injection hcore with havg
    refine ⟨havg.symm, ?_⟩
    simpa using except_mapM_ok_length _ _ _ hrun

/-- Witness for C5: a one-underlying, one-path, no-barrier run of 30 days. -/
theorem C5_steps_and_discounting_witness :
    price_option [Underlying.mk "A" 100 0] (DMatrix.mk 1 1 fun _ _ => 1) 30
        100 true (1 / 20) 1 none (fun _ _ _ => 1) =
      .ok ((([gate_payoff none false
            (intrinsic_payoff 100 true (100 * 1))].sum / ((1 : ℕ) : ℚ) : ℚ) :
          ℝ) *
        Real.exp (-((1 / 20 : ℚ) : ℝ) * (((30 : ℕ) : ℝ) / 365))) ∧
    num_steps 30 none = 1 :=
  ⟨(C5_steps_and_discounting [Underlying.mk "A" 100 0]
      (DMatrix.mk 1 1 fun _ _ => 1) 30 100 true (1 / 20) 1 none
      (fun _ _ _ => 1)
      ([gate_payoff none false (intrinsic_payoff 100 true (100 * 1))].sum /
        ((1 : ℕ) : ℚ)) rfl).1,
   (C5_steps_and_discounting [Underlying.mk "A" 100 0]
      (DMatrix.mk 1 1 fun _ _ => 1) 30 100 true (1 / 20) 1 none
      (fun _ _ _ => 1)
      ([gate_payoff none false (intrinsic_payoff 100 true (100 * 1))].sum /
        ((1 : ℕ) : ℚ)) rfl).2.1 rfl⟩

/-- C6: for valid inputs (non-empty underlyings with positive spots and
non-negative volatilities, matching correlation matrix whose Cholesky
factorisation succeeds, positive path count, any strike and rate, and a
well-formed barrier if any) the price is returned and is `≥ 0`: every
payoff is `≥ 0` through `max(..., 0)`, the discount factor is `> 0`, and
the average of non-negatives is `≥ 0`.  In this embedding every value is a
finite real, so the result is finite by construction. -/
theorem C6_nonnegative_price (us : List Underlying) (corr : DMatrix)
    (days : ℕ) (K : ℚ) (c : Bool) (r : ℚ) (np : ℕ) (b : Option Barrier)
    (G : ℕ → ℕ → ℕ → ℚ)
    (hne : us ≠ [])
    (hvalid : ∀ u ∈ us, 0 < u.spot_price ∧ 0 ≤ u.volatility)
    (hrows : corr.nrows = us.length) (hcols : corr.ncols = us.length)
    (hchol : choleskyOk us.length corr.entry = true)
    (hnp : 0 < np)
    (hbar : ∀ bb, b = some bb → bb.underlying_indices ≠ [] ∧
      ∀ i ∈ bb.underlying_indices, i < us.length) :
    (price_option us corr days K c r np b G).isOk = true ∧
    ∀ x, price_option us corr days K c r np b G = .ok x → 0 ≤ x := by
  obtain ⟨avg, hcore, h0⟩ := core_ok_of_valid us corr days K c np b G hne
    hrows hcols hchol hbar
  constructor
  · unfold price_option
    rw [hcore]
    rfl
  · intro x hx
    unfold price_option at hx
    rw [hcore] at hx
    replace hx : Except.ok ((avg : ℝ) *
        Real.exp (-(r : ℝ) * ((days : ℝ) / 365))) = Except.ok x := hx
    injection hx with hx2
    rw [← hx2]
    exact mul_nonneg (by exact_mod_cast h0) (Real.exp_pos _).le

/-- Witness for C6: a concrete valid one-underlying configuration. -/
theorem C6_nonnegative_price_witness :
    (price_option [Underlying.mk "A" 100 0] (DMatrix.mk 1 1 fun _ _ => 1) 30
      100 true (1 / 20) 1000 none (fun _ _ _ => 1)).isOk = true :=
  (C6_nonnegative_price [Underlying.mk "A" 100 0]
    (DMatrix.mk 1 1 fun _ _ => 1) 30 100 true (1 / 20) 1000 none
    (fun _ _ _ => 1) (by simp) (by decide) rfl rfl (by decide) (by decide)
    (fun bb hbb => Option.noConfusion hbb)).1

/-- Counterexample for C7: with an empty underlying list (and a matching
0-by-0 correlation matrix) the pricing call is not rejected before the path
loop; it panics at the payoff computation of path 0, after the first path
has begun — a different stage from every configuration error. -/
theorem C7_counterexample :
    price_option_core [] (DMatrix.mk 0 0 fun _ _ => 0) 5 100 true 1 none
      (fun _ _ _ => 1) = .error (.panicInPath 0) ∧
    PriceError.panicInPath 0 ≠ PriceError.dimMismatch ∧
    PriceError.panicInPath 0 ≠ PriceError.notPositiveDefinite ∧
    PriceError.panicInPath 0 ≠ PriceError.panicInit :=
  ⟨rfl, by decide, by decide, by decide⟩

/-- C7 (amended): dimension mismatches and Cholesky failures abort before
any path is simulated, and a valid configuration (which requires a
non-empty underlying list and in-bounds barrier indices) completes all
paths and returns exactly one price; but an empty underlying list is not
rejected before the loop — it panics during the first path, at the payoff
computation. -/
theorem C7_abort_semantics :
    (∀ (us : List Underlying) (corr : DMatrix) (days : ℕ) (K : ℚ) (c : Bool)
        (np : ℕ) (b : Option Barrier) (G : ℕ → ℕ → ℕ → ℚ),
      (corr.nrows ≠ us.length ∨ corr.ncols ≠ us.length) →
      price_option_core us corr days K c np b G = .error .dimMismatch) ∧
    (∀ (us : List Underlying) (corr : DMatrix) (days : ℕ) (K : ℚ) (c : Bool)
        (np : ℕ) (b : Option Barrier) (G : ℕ → ℕ → ℕ → ℚ),
      corr.nrows = us.length → corr.ncols = us.length →
      choleskyOk us.length corr.entry = false →
      price_option_core us corr days K c np b G =
        .error .notPositiveDefinite) ∧
    (∀ (us : List Underlying) (corr : DMatrix) (days : ℕ) (K : ℚ) (c : Bool)
        (np : ℕ) (b : Option Barrier) (G : ℕ → ℕ → ℕ → ℚ),
      us ≠ [] → corr.nrows = us.length → corr.ncols = us.length →
      choleskyOk us.length corr.entry = true →
      (∀ bb, b = some bb → bb.underlying_indices ≠ [] ∧
        ∀ i ∈ bb.underlying_indices, i < us.length) →
      (price_option_core us corr days K c np b G).isOk = true) ∧
    (∀ (corr : DMatrix) (days : ℕ) (K : ℚ) (c : Bool) (np : ℕ)
        (G : ℕ → ℕ → ℕ → ℚ),
      corr.nrows = 0 → corr.ncols = 0 → 0 < np →
      price_option_core [] corr days K c np none G =
        .error (.panicInPath 0)) := by
  refine ⟨?_, ?_, ?_, ?_⟩
  · exact fun us corr days K c np b G h =>
      price_option_core_dim_error us corr days K c np b G h
  · exact fun us corr days K c np b G h1 h2 h3 =>
      price_option_core_chol_error us corr days K c np b G h1 h2 h3
  · intro us corr days K c np b G hne hrows hcols hchol hbar
    obtain ⟨avg, hcore, _⟩ := core_ok_of_valid us corr days K c np b G hne
      hrows hcols hchol hbar
    rw [hcore]
    rfl
  · intro corr days K c np G hrows hcols hnp
    obtain ⟨m, rfl⟩ : ∃ m, np = m + 1 := ⟨np - 1, by omega⟩
    rw [price_option_core_valid_eq [] corr days K c (m + 1) none G
      (by simpa using hrows) (by simpa using hcols) rfl]
    have hrp : run_payoffs K c none none (([] : List Underlying).map
        fun u => u.spot_price) (num_steps days none) (m + 1) G =
        .error (.panicInPath 0) := by
      unfold run_payoffs
      rw [List.range_succ_eq_map, List.mapM_cons]
      rw [show path_result K c none none (([] : List Underlying).map
          fun u => u.spot_price) (num_steps days none) 0 (G 0) =
          .error (.panicInPath 0) from rfl]
      rfl
    show (match run_payoffs K c none none (([] : List Underlying).map
        fun u : Underlying => u.spot_price) (num_steps days none) (m + 1)
        G with
      | .error e => Except.error e
      | .ok payoffs => Except.ok (payoffs.sum / ((m + 1 : ℕ) : ℚ))) = _
    rw [hrp]

/-- Witness for the amended C7: a 0-by-1 mismatch aborts with a dimension
error, and the empty-underlying case panics in path 0. -/
theorem C7_abort_semantics_witness :
    price_option_core [Underlying.mk "A" 100 0] (DMatrix.mk 0 0 fun _ _ => 1)
      30 100 true 1 none (fun _ _ _ => 1) = .error .dimMismatch ∧
    price_option_core [] (DMatrix.mk 0 0 fun _ _ => 1) 30 100 true 1 none
      (fun _ _ _ => 1) = .error (.panicInPath 0) :=
  ⟨C7_abort_semantics.1 [Underlying.mk "A" 100 0]
      (DMatrix.mk 0 0 fun _ _ => 1) 30 100 true 1 none (fun _ _ _ => 1)
      (Or.inl (by decide)),
   C7_abort_semantics.2.2.2 (DMatrix.mk 0 0 fun _ _ => 1) 30 100 true 1
      (fun _ _ _ => 1) rfl rfl (by decide)⟩

/-- Counterexample for C10: a relative barrier with an out-of-range index
panics while computing the initial reference (src/lib.rs:119), before any
path is simulated — the model's `panicInit` stage — so an out-of-range
index is not always detected by a panic inside the simulation loop. -/
theorem C10_counterexample :
    price_option_core [Underlying.mk "A" 100 0] (DMatrix.mk 1 1 fun _ _ => 1)
      5 100 true 1
      (some (Barrier.mk 105 true true BarrierType.WorstOf true [5]))
      (fun _ _ _ => 1) = .error .panicInit ∧
    PriceError.panicInit ≠ PriceError.panicInPath 0 ∧
    PriceError.panicInit ≠ PriceError.dimMismatch ∧
    PriceError.panicInit ≠ PriceError.notPositiveDefinite :=
  ⟨rfl, by decide, by decide, by decide⟩

/-- C10 (amended): when every barrier index is below the number of
underlyings (and the index set is non-empty, as the spec's data model
requires), every price access inside the aggregation is in bounds and the
evaluation cannot panic; neither constructor checks the indices against any
underlying count — there is no underlying count in their signatures and
`new_multi` accepts any relative index set — so an out-of-range index is
detected only by a panic inside the pricing call after its entry checks
pass: for a non-relative barrier by a panic inside the simulation of
path 0, and for a relative barrier by a panic while computing the initial
reference before any path; in neither case at construction or at
pricing-call entry. -/
theorem C10_index_bounds :
    (∀ (prices : List ℚ) (idxs : List ℕ) (bt : BarrierType), idxs ≠ [] →
      (∀ i ∈ idxs, i < prices.length) →
      (calculate_reference prices idxs bt).isSome = true) ∧
    (∀ (lvl : ℚ) (io ud : Bool) (bt : BarrierType) (idxs : List ℕ),
      Barrier.new_multi lvl io ud bt true idxs =
        .ok (Barrier.mk lvl io ud bt true idxs)) ∧
    (∀ (us : List Underlying) (corr : DMatrix) (days : ℕ) (K : ℚ) (c : Bool)
        (np : ℕ) (G : ℕ → ℕ → ℕ → ℚ) (lvl : ℚ) (io ud : Bool)
        (bt : BarrierType) (j : ℕ),
      corr.nrows = us.length → corr.ncols = us.length →
      choleskyOk us.length corr.entry = true → 0 < np → 0 < days →
      us.length ≤ j →
      price_option_core us corr days K c np
        (some (Barrier.mk lvl io ud bt false [j])) G =
        .error (.panicInPath 0)) ∧
    (∀ (us : List Underlying) (corr : DMatrix) (days : ℕ) (K : ℚ) (c : Bool)
        (np : ℕ) (G : ℕ → ℕ → ℕ → ℚ) (lvl : ℚ) (io ud : Bool)
        (bt : BarrierType) (j : ℕ),
      corr.nrows = us.length → corr.ncols = us.length →
      choleskyOk us.length corr.entry = true →
      us.length ≤ j →
      price_option_core us corr days K c np
        (some (Barrier.mk lvl io ud bt true [j])) G =
        .error .panicInit) := by
  refine ⟨?_, ?_, ?_, ?_⟩
  · exact fun prices idxs bt hne hbd =>
      calculate_reference_isSome prices idxs bt hne hbd
  · intro lvl io ud bt idxs
    unfold Barrier.new_multi
    rw [if_neg (fun h => Bool.noConfusion h.2)]
  · intro us corr days K c np G lvl io ud bt j hrows hcols hchol hnp hdays hj
    obtain ⟨m, rfl⟩ : ∃ m, np = m + 1 := ⟨np - 1, by omega⟩
    obtain ⟨k, rfl⟩ : ∃ k, days = k + 1 := ⟨days - 1, by omega⟩
    rw [price_option_core_valid_eq us corr (k + 1) K c (m + 1)
      (some (Barrier.mk lvl io ud bt false [j])) G hrows hcols hchol]
    have hslen : (us.map fun u => u.spot_price).length = us.length := by simp
    have hsim : simulate_path (some (Barrier.mk lvl io ud bt false [j])) none
        (us.map fun u => u.spot_price)
        (num_steps (k + 1) (some (Barrier.mk lvl io ud bt false [j])))
        (G 0) = none := by
      rw [show num_steps (k + 1)
        (some (Barrier.mk lvl io ud bt false [j])) = k + 1 from rfl]
      apply simulate_first_step_none
      simp only [path_step]
      rw [barrier_check_oob (Barrier.mk lvl io ud bt false [j]) none _ j rfl
        rfl (by rw [gbm_step_length, hslen]; exact hj)]
    have hrp : run_payoffs K c (some (Barrier.mk lvl io ud bt false [j])) none
        (us.map fun u => u.spot_price)
        (num_steps (k + 1) (some (Barrier.mk lvl io ud bt false [j])))
        (m + 1) G = .error (.panicInPath 0) := by
      unfold run_payoffs
      rw [List.range_succ_eq_map, List.mapM_cons]
      rw [show path_result K c (some (Barrier.mk lvl io ud bt false [j])) none
          (us.map fun u => u.spot_price)
          (num_steps (k + 1) (some (Barrier.mk lvl io ud bt false [j]))) 0
          (G 0) = .error (.panicInPath 0) by
        unfold path_result
        rw [hsim]
        rfl]
      rfl
    show (match compute_initial_reference
        (some (Barrier.mk lvl io ud bt false [j]))
        (us.map fun u : Underlying => u.spot_price) with
      | none => Except.error PriceError.panicInit
      | some iref =>
        match run_payoffs K c (some (Barrier.mk lvl io ud bt false [j])) iref
            (us.map fun u : Underlying => u.spot_price)
            (num_steps (k + 1) (some (Barrier.mk lvl io ud bt false [j])))
            (m + 1) G with
        | .error e => Except.error e
        | .ok payoffs => Except.ok (payoffs.sum / ((m + 1 : ℕ) : ℚ))) = _
    rw [show compute_initial_reference
        (some (Barrier.mk lvl io ud bt false [j]))
        (us.map fun u => u.spot_price) = some none from rfl]
    show (match run_payoffs K c (some (Barrier.mk lvl io ud bt false [j]))
        none (us.map fun u : Underlying => u.spot_price)
        (num_steps (k + 1) (some (Barrier.mk lvl io ud bt false [j])))
        (m + 1) G with
      | .error e => Except.error e
      | .ok payoffs => Except.ok (payoffs.sum / ((m + 1 : ℕ) : ℚ))) = _
    rw [hrp]
  · intro us corr days K c np G lvl io ud bt j hrows hcols hchol hj
    rw [price_option_core_valid_eq us corr days K c np
      (some (Barrier.mk lvl io ud bt true [j])) G hrows hcols hchol]
    have hslen : (us.map fun u => u.spot_price).length = us.length := by simp
    have hcir : compute_initial_reference
        (some (Barrier.mk lvl io ud bt true [j]))
        (us.map fun u => u.spot_price) = none := by
      show (match calculate_reference
          (us.map fun u : Underlying => u.spot_price) [j] bt with
        | none => none
        | some ir => some (some ir) : Option (Option ℚ)) = none
      rw [calculate_reference_oob (us.map fun u => u.spot_price) j bt
        (by rw [hslen]; exact hj)]
    rw [hcir]

/-- Witness for C10: in-bounds aggregation on one price; an out-of-bounds
index 5 on a single underlying panicking in path 0 for an absolute barrier
and before any path for a relative barrier. -/
theorem C10_index_bounds_witness :
    (calculate_reference [100] [0] BarrierType.WorstOf).isSome = true ∧
    price_option_core [Underlying.mk "A" 100 0] (DMatrix.mk 1 1 fun _ _ => 1)
      1 100 true 1 (some (Barrier.mk 105 true true BarrierType.WorstOf false
        [5])) (fun _ _ _ => 1) = .error (.panicInPath 0) ∧
    price_option_core [Underlying.mk "A" 100 0] (DMatrix.mk 1 1 fun _ _ => 1)
      1 100 true 1 (some (Barrier.mk 105 true true BarrierType.WorstOf true
        [5])) (fun _ _ _ => 1) = .error .panicInit :=
  ⟨C10_index_bounds.1 [100] [0] BarrierType.WorstOf (by decide) (by decide),
   C10_index_bounds.2.2.1 [Underlying.mk "A" 100 0]
     (DMatrix.mk 1 1 fun _ _ => 1) 1 100 true 1 (fun _ _ _ => 1) 105 true
     true BarrierType.WorstOf 5 rfl rfl (by decide) (by decide) (by decide)
     (by decide),
   C10_index_bounds.2.2.2 [Underlying.mk "A" 100 0]
     (DMatrix.mk 1 1 fun _ _ => 1) 1 100 true 1 (fun _ _ _ => 1) 105 true
     true BarrierType.WorstOf 5 rfl rfl (by decide) (by decide)⟩

end MCProton
